import Mathlib

/-!
Verification of the analytics engine of the production-efficiency analysis
application (`src/app.py`).  The per-record metric derivation, benchmark
computation, loss modelling, aggregation and ranking of
`DataEngine.clean_and_process`, the field normalization / schema validation
step, and the coefficient-of-variation computation of `VizEngine.create_cv_chart`
are embedded as executable Lean definitions over `ℚ`, and the spec's claims
about them are proved or refuted below.
-/

namespace ProdAnalysis

/-- One input observation (a row of the input table after normalization):
machine id (機台編號), facility (廠別), raw OEE (OEE_RAW), output quantity
(產量) and energy consumed (耗電量). -/
structure Record where
  entity : String
  facility : String
  oeeRaw : ℚ
  output : ℚ
  energy : ℚ
deriving DecidableEq

/-- The three per-run parameters supplied by the caller.  As in the code,
`targetOee` is supplied on the percent scale (the engine divides it by 100). -/
structure Params where
  elecPrice : ℚ
  targetOee : ℚ
  margin : ℚ
deriving DecidableEq

/-- OEE normalization (line 76 of `app.py`):
`x / 100.0 if x > 1.0 else x`. -/
def normOee (x : ℚ) : ℚ := if 1 < x then x / 100 else x

/-- The normalized OEE of a record. -/
def oee (r : Record) : ℚ := normOee r.oeeRaw

/-- Per-record unit energy (line 77): `耗電量 / 產量 if 產量 > 0 else 0`. -/
def unitEnergy (r : Record) : ℚ := if 0 < r.output then r.energy / r.output else 0

/-- The strictly positive per-record unit energies of the whole input set
(line 79): `df[df["單位能耗"] > 0]["單位能耗"]`. -/
def validEnergies (rs : List Record) : List ℚ :=
  (rs.map unitEnergy).filter (fun e => decide (0 < e))

/-- Minimum of a list of rationals (pandas `Series.min`); `0` on the empty
list, which the code never takes (it guards with `empty`). -/
def listMin : List ℚ → ℚ
  | [] => 0
  | x :: xs => xs.foldl min x

/-- The benchmark unit energy (line 80):
`valid_energies.min() if not valid_energies.empty else 0`. -/
def bestEnergy (rs : List Record) : ℚ :=
  if validEnergies rs = [] then 0 else listMin (validEnergies rs)

/-- Per-record energy loss (line 82):
`max(0, (單位能耗 - best_energy) * 產量 * elec_price)`. -/
def energyLoss (rs : List Record) (p : Params) (r : Record) : ℚ :=
  max 0 ((unitEnergy r - bestEnergy rs) * r.output * p.elecPrice)

/-- Per-record capacity opportunity loss (lines 83-86):
`((target_oee/100 - OEE) / OEE * 產量 * product_margin) if 0 < OEE < target_oee/100 else 0`. -/
def capacityLoss (p : Params) (r : Record) : ℚ :=
  if 0 < oee r ∧ oee r < p.targetOee / 100 then
    ((p.targetOee / 100 - oee r) / oee r) * r.output * p.margin
  else 0

/-- Per-record total loss (line 87). -/
def totalLoss (rs : List Record) (p : Params) (r : Record) : ℚ :=
  energyLoss rs p r + capacityLoss p r

/-- Rounding a rational to two decimal places (how the spec's literal
figures such as `4166.67` are displayed). -/
def round2 (q : ℚ) : ℚ := (round (q * 100) : ℤ) / 100

/-- Parameters of the spec's literal scenario: price 3.5, target OEE 85%,
margin 10. -/
def scenarioParams : Params := ⟨35/10, 85, 10⟩

/-- Scenario record 1: oee 0.8, output 1000, energy 100. -/
def scenR1 : Record := ⟨"E1", "F", 8/10, 1000, 100⟩

/-- Scenario record 2: oee 0.6, output 1000, energy 120. -/
def scenR2 : Record := ⟨"E2", "F", 6/10, 1000, 120⟩

/-- Scenario record 3: oee 0.9, output 1000, energy 90. -/
def scenR3 : Record := ⟨"E3", "F", 9/10, 1000, 90⟩

/-- The scenario input set. -/
def scenRs : List Record := [scenR1, scenR2, scenR3]

/-- A two-record single-machine group with uneven outputs; its weighted
unit energy (2) differs from the arithmetic mean of its per-record unit
energies (50/9). -/
def skewRs : List Record :=
  [⟨"M", "F", 1/2, 1, 10⟩, ⟨"M", "F", 1/2, 9, 10⟩]

/-- Two single-record machine groups with identical mean OEE, exhibiting
how the sorted summary assigns tied groups distinct row positions. -/
def tieRs : List Record :=
  [⟨"A", "F", 1/2, 100, 10⟩, ⟨"B", "F", 1/2, 100, 10⟩]

/-! ### Aggregation, sorting and ranking (lines 89-100 of `app.py`) -/

/-- The distinct values of a list of strings (pandas `nunique` / `groupby`
key set).  Order is irrelevant to every property below. -/
def dedupKeys : List String → List String
  | [] => []
  | x :: xs => if x ∈ dedupKeys xs then dedupKeys xs else x :: dedupKeys xs

/-- The grouping keys of an input set under a grouping function. -/
def keysOf (rs : List Record) (k : Record → String) : List String :=
  dedupKeys (rs.map k)

/-- The records of one group. -/
def groupRecords (rs : List Record) (k : Record → String) (key : String) :
    List Record :=
  rs.filter (fun r => decide (k r = key))

/-- Aggregated output of a group (`"產量": "sum"`). -/
def sumOutput (g : List Record) : ℚ := (g.map Record.output).sum

/-- Aggregated energy of a group (`"耗電量": "sum"`). -/
def sumEnergy (g : List Record) : ℚ := (g.map Record.energy).sum

/-- Mean OEE of a group (`"OEE": "mean"`). -/
def meanOee (g : List Record) : ℚ := (g.map oee).sum / (g.length : ℚ)

/-- Group-level unit energy (lines 97-99):
`耗電量 / 產量 if 產量 > 0 else 0`, computed on the group sums. -/
def groupUnitEnergy (rs : List Record) (k : Record → String) (key : String) : ℚ :=
  if 0 < sumOutput (groupRecords rs k key) then
    sumEnergy (groupRecords rs k key) / sumOutput (groupRecords rs k key)
  else 0

/-- Modelled from the spec's words for comparison only: the arithmetic mean
of the per-record unit energies of a group, the aggregation the spec says is
never used. -/
def meanUnitEnergy (g : List Record) : ℚ :=
  ((g.map unitEnergy).sum) / (g.length : ℚ)

/-- One summary row per group key: the key with its mean OEE. -/
def summaryRows (rs : List Record) (k : Record → String) : List (String × ℚ) :=
  (keysOf rs k).map (fun key => (key, meanOee (groupRecords rs k key)))

/-- Insertion into a list kept in descending order of the second component. -/
def insertDesc (x : String × ℚ) : List (String × ℚ) → List (String × ℚ)
  | [] => [x]
  | y :: ys => if y.2 < x.2 then x :: y :: ys else y :: insertDesc x ys

/-- Sorting in descending order of the second component, modelling
`summary_agg.sort_values("OEE", ascending=False)` (line 100). -/
def sortDesc : List (String × ℚ) → List (String × ℚ)
  | [] => []
  | x :: xs => insertDesc x (sortDesc xs)

/-- The summary table sorted by mean OEE descending — the table every
downstream consumer (rank chart, best/worst rows) reads. -/
def sortedSummary (rs : List Record) (k : Record → String) :
    List (String × ℚ) :=
  sortDesc (summaryRows rs k)

/-- Index of the first row carrying a given key. -/
def idxOfKey (key : String) : List (String × ℚ) → Nat
  | [] => 0
  | p :: ps => if p.1 = key then 0 else idxOfKey key ps + 1

/-- A group's rank: its 1-based row position in the sorted summary table
(the only notion of rank the code produces — it has no rank column). -/
def rankOf (rs : List Record) (k : Record → String) (key : String) : Nat :=
  idxOfKey key (sortedSummary rs k) + 1

/-- Grouping dimension selection (line 89): facility when more than one
distinct facility is present, machine otherwise. -/
def groupKey (rs : List Record) : Record → String :=
  if 1 < (dedupKeys (rs.map Record.facility)).length then Record.facility
  else Record.entity

/-! ### The input table and the field normalizer (lines 62-74 of `app.py`) -/

/-- A cell of the raw input table: a number, a string, or an
already-parsed calendar date (as an epoch day count). -/
inductive Val where
  | num : ℚ → Val
  | str : String → Val
  | date : Int → Val
deriving DecidableEq

/-- A table: columns in order, each a name with its cell values.  (pandas
allows duplicate column labels, which `rename` can create, so this is a
list, not a map.) -/
abbrev Table := List (String × List Val)

/-- The column labels of a table. -/
def names (t : Table) : List String := t.map Prod.fst

/-- The synonym rename map of line 62. -/
def renameMap : List (String × String) :=
  [("用電量(kWh)", "耗電量"), ("產量(雙)", "產量"), ("OEE(%)", "OEE_RAW"),
   ("設備", "機台編號"), ("機台", "機台編號")]

/-- The synonym column names. -/
def synonymKeys : List String := renameMap.map Prod.fst

/-- One guarded rename step (lines 63-64): if the synonym label is present,
relabel every column carrying it; values are never touched. -/
def renameStep (k s : String) (t : Table) : Table :=
  if k ∈ names t then t.map (fun c => if c.1 = k then (s, c.2) else c) else t

/-- All five rename steps, applied in the order of `rename_map`. -/
def renameAll (t : Table) : Table :=
  renameMap.foldl (fun acc p => renameStep p.1 p.2 acc) t

/-- The effect of the whole rename chain on a single column label. -/
def renameChain (n : String) : String :=
  renameMap.foldl (fun m p => if m = p.1 then p.2 else m) n

/-- The four required canonical columns (line 66). -/
def requiredCols : List String := ["機台編號", "耗電量", "產量", "OEE_RAW"]

/-- The canonical schema: the required columns plus the optional date and
facility columns. -/
def canonicalCols : List String :=
  ["日期", "廠別", "機台編號", "耗電量", "產量", "OEE_RAW"]

/-- The required columns not present in a table, in canonical order —
exactly the list the error message of line 68 reports. -/
def missingCols (t : Table) : List String :=
  requiredCols.filter (fun c => decide (c ∉ names t))

/-- The error outcomes of `clean_and_process` (the function returns
`(None, None, message)`): a schema failure naming the missing columns, or a
date-format failure. -/
inductive DataError where
  | schema : List String → DataError
  | dateError : DataError
deriving DecidableEq

/-- Parsing one cell of the date column.  The external parser
(`pd.to_datetime(..., errors='coerce')`) is a parameter `parse`; a `none`
models a `NaT`. -/
def parseDateVal (parse : Val → Option Int) (v : Val) : Option Val :=
  (parse v).map Val.date

/-- Parsing a whole column of date cells; fails if any cell fails
(line 72: `if df["日期"].isnull().any()`). -/
def parseVals (parse : Val → Option Int) : List Val → Option (List Val)
  | [] => some []
  | v :: vs =>
    match parseDateVal parse v, parseVals parse vs with
    | some v', some vs' => some (v' :: vs')
    | _, _ => none

/-- Parsing the date column(s) of a table (lines 70-72); columns other than
`日期` are untouched, and a table without a date column is unchanged. -/
def parseDatesCols (parse : Val → Option Int) : Table → Option Table
  | [] => some []
  | c :: rest =>
    if c.1 = "日期" then
      match parseVals parse c.2, parseDatesCols parse rest with
      | some vs', some rest' => some ((c.1, vs') :: rest')
      | _, _ => none
    else
      match parseDatesCols parse rest with
      | some rest' => some (c :: rest')
      | none => none

/-- Whether a cell is an already-parsed date. -/
def isDate : Val → Bool
  | Val.date _ => true
  | _ => false

/-- A table already in the canonical schema: every label canonical, the four
required columns present, the facility column present, and every date cell
already parsed. -/
def canonicalTable (t : Table) : Prop :=
  (∀ n ∈ names t, n ∈ canonicalCols) ∧
  missingCols t = [] ∧
  "廠別" ∈ names t ∧
  (∀ c ∈ t, c.1 = "日期" → ∀ v ∈ c.2, isDate v = true)

/-- The row count of a table (pandas broadcast length). -/
def nrows (t : Table) : Nat := (t.head?.map (fun c => c.2.length)).getD 0

/-- Facility default injection (line 74): if no `廠別` column exists, add
one filled with the placeholder. -/
def addFacility (t : Table) : Table :=
  if "廠別" ∈ names t then t
  else t ++ [("廠別", List.replicate (nrows t) (Val.str "匯入廠區"))]

/-- The Field Normalizer (lines 62-74): synonym renaming, then the
required-column check, then date parsing, then facility default. -/
def normalizeTable (parse : Val → Option Int) (t : Table) :
    Except DataError Table :=
  let t1 := renameAll t
  if missingCols t1 ≠ [] then Except.error (DataError.schema (missingCols t1))
  else
    match parseDatesCols parse t1 with
    | none => Except.error DataError.dateError
    | some t2 => Except.ok (addFacility t2)

/-- Numeric content of a cell. -/
def getNum : Val → ℚ
  | Val.num q => q
  | _ => 0

/-- String content of a cell. -/
def getStr : Val → String
  | Val.str s => s
  | _ => ""

/-- The values of the first column carrying a label. -/
def colVals (t : Table) (n : String) : List Val := (List.lookup n t).getD []

/-- The records of a normalized table, row by row. -/
def recordsOfTable (t : Table) : List Record :=
  (List.range (colVals t "機台編號").length).map (fun i =>
    { entity := getStr ((colVals t "機台編號").getD i (Val.str ""))
      facility := getStr ((colVals t "廠別").getD i (Val.str ""))
      oeeRaw := getNum ((colVals t "OEE_RAW").getD i (Val.num 0))
      output := getNum ((colVals t "產量").getD i (Val.num 0))
      energy := getNum ((colVals t "耗電量").getD i (Val.num 0)) })

/-- A per-record row of the enriched output table: the record with its five
derived columns (OEE, 單位能耗, 能源損失, 產能損失機會成本, 總損失). -/
structure Enriched where
  base : Record
  oeeVal : ℚ
  ue : ℚ
  eLoss : ℚ
  cLoss : ℚ
  tLoss : ℚ
deriving DecidableEq

/-- The enriched record list produced by the metric calculator. -/
def enrich (rs : List Record) (p : Params) : List Enriched :=
  rs.map (fun r =>
    ⟨r, oee r, unitEnergy r, energyLoss rs p r, capacityLoss p r, totalLoss rs p r⟩)

/-- The whole engine `DataEngine.clean_and_process`: normalize, then derive
per-record metrics and the sorted per-group summary; an error aborts the run
with no partial output. -/
def cleanAndProcess (parse : Val → Option Int) (t : Table) (p : Params) :
    Except DataError (List Enriched × List (String × ℚ)) :=
  match normalizeTable parse t with
  | Except.error e => Except.error e
  | Except.ok t' =>
    let rs := recordsOfTable t'
    Except.ok (enrich rs p, sortedSummary rs (groupKey rs))

/-! ### The stability analyzer (`VizEngine.create_cv_chart`, lines 200-209) -/

/-- A pandas float cell: a finite number, `NaN`, or a signed infinity. -/
inductive PVal where
  | num : ℚ → PVal
  | nan : PVal
  | pinf : PVal
  | ninf : PVal
deriving DecidableEq

/-- Mean of a list of rationals (pandas `mean`). -/
def listMean (xs : List ℚ) : ℚ := xs.sum / (xs.length : ℚ)

/-- Sample variance with one delta degree of freedom (pandas `std` squares). -/
def sampleVar (xs : List ℚ) : ℚ :=
  (xs.map (fun x => (x - listMean xs) ^ 2)).sum / ((xs.length : ℚ) - 1)

/-- pandas `std` of a column: `NaN` on fewer than two values, otherwise the
square root of the sample variance.  The square root itself is the external
numeric routine, passed as `sq`. -/
def stdP (sq : ℚ → ℚ) (xs : List ℚ) : PVal :=
  if xs.length < 2 then PVal.nan else PVal.num (sq (sampleVar xs))

/-- IEEE division of a pandas cell by a finite mean: `0/0` is `NaN`, a
nonzero number over `0` is a signed infinity. -/
def divPVal : PVal → ℚ → PVal
  | PVal.num a, m =>
    if m = 0 then
      (if a = 0 then PVal.nan else if 0 < a then PVal.pinf else PVal.ninf)
    else PVal.num (a / m)
  | PVal.nan, _ => PVal.nan
  | PVal.pinf, m => if m < 0 then PVal.ninf else PVal.pinf
  | PVal.ninf, m => if m < 0 then PVal.pinf else PVal.ninf

/-- Multiplication of a pandas cell by the positive constant 100. -/
def mulPVal100 : PVal → PVal
  | PVal.num a => PVal.num (a * 100)
  | PVal.nan => PVal.nan
  | PVal.pinf => PVal.pinf
  | PVal.ninf => PVal.ninf

/-- pandas `fillna(0)`: replaces `NaN` (and only `NaN`) by `0`. -/
def fillna0 : PVal → PVal
  | PVal.nan => PVal.num 0
  | v => v

/-- The OEE values of one group. -/
def groupOees (rs : List Record) (k : Record → String) (key : String) :
    List ℚ :=
  (groupRecords rs k key).map oee

/-- The CV cell of one group in `create_cv_chart` (lines 202-204):
`(std / mean) * 100`, then `fillna(0)`. -/
def cvChart (sq : ℚ → ℚ) (rs : List Record) (k : Record → String)
    (key : String) : PVal :=
  fillna0 (mulPVal100 (divPVal (stdP sq (groupOees rs k key))
    (listMean (groupOees rs k key))))

/-! ### Concrete inputs used by the witnesses -/

/-- A date parser for concrete runs: an already-parsed date parses to
itself, anything else fails. -/
def demoParse : Val → Option Int
  | Val.date d => some d
  | _ => none

/-- A table missing the output and OEE columns (after renaming). -/
def demoT : Table :=
  [("機台編號", [Val.str "M1"]), ("用電量(kWh)", [Val.num 5])]

/-- A table already in the canonical schema. -/
def canonT : Table :=
  [("機台編號", [Val.str "M"]), ("耗電量", [Val.num 5]), ("產量", [Val.num 2]),
   ("OEE_RAW", [Val.num 50]), ("廠別", [Val.str "A"]), ("日期", [Val.date 20000])]

/-- A two-record group whose OEE values are all zero (mean zero). -/
def zeroRs : List Record :=
  [⟨"Z", "F", 0, 1, 1⟩, ⟨"Z", "F", 0, 1, 1⟩]

end ProdAnalysis

namespace ProdAnalysis

/-! ### Helper lemmas on list minima -/

theorem foldl_min_le_init (xs : List ℚ) (x : ℚ) : xs.foldl min x ≤ x := by
  induction xs generalizing x with
  | nil => simp
  | cons y ys ih =>
    simp only [List.foldl_cons]
    exact le_trans (ih (min x y)) (min_le_left x y)

theorem foldl_min_le_mem (xs : List ℚ) (x y : ℚ) (hy : y ∈ xs) :
    xs.foldl min x ≤ y := by
  induction xs generalizing x with
  | nil => cases hy
  | cons z zs ih =>
    simp only [List.foldl_cons]
    rcases List.mem_cons.mp hy with h | h
    · subst h
      exact le_trans (foldl_min_le_init zs (min x y)) (min_le_right x y)
    · exact ih (min x z) h

theorem foldl_min_mem (xs : List ℚ) (x : ℚ) :
    xs.foldl min x = x ∨ xs.foldl min x ∈ xs := by
  induction xs generalizing x with
  | nil => exact Or.inl rfl
  | cons y ys ih =>
    simp only [List.foldl_cons]
    rcases ih (min x y) with h | h
    · rcases min_cases x y with ⟨hmin, _⟩ | ⟨hmin, _⟩
      · exact Or.inl (by rw [h, hmin])
      · exact Or.inr (by rw [h, hmin]; exact List.mem_cons_self y ys)
    · exact Or.inr (List.mem_cons_of_mem y h)

theorem listMin_mem (l : List ℚ) (h : l ≠ []) : listMin l ∈ l := by
  match l with
  | [] => exact absurd rfl h
  | x :: xs =>
    rcases foldl_min_mem xs x with h1 | h1
    · rw [listMin, h1]; exact List.mem_cons_self x xs
    · exact List.mem_cons_of_mem x h1

theorem listMin_le (l : List ℚ) (y : ℚ) (hy : y ∈ l) : listMin l ≤ y := by
  match l with
  | [] => cases hy
  | x :: xs =>
    rcases List.mem_cons.mp hy with h | h
    · subst h; exact foldl_min_le_init xs y
    · exact foldl_min_le_mem xs x y h

/-- Claim C1: the capacity opportunity loss is
`((target - oee) / oee) * output * margin` exactly when `0 < oee < target`
(with `target` the run's target-OEE fraction, i.e. the supplied percentage
over 100), and `0` otherwise; in the literal scenario the three losses are
`625`, `12500/3` (whose two-decimal rendering is `4166.67`) and `0`. -/
theorem capacity_loss_spec (p : Params) (r : Record) :
    (0 < oee r ∧ oee r < p.targetOee / 100 →
      capacityLoss p r
        = ((p.targetOee / 100 - oee r) / oee r) * r.output * p.margin) ∧
    (¬ (0 < oee r ∧ oee r < p.targetOee / 100) → capacityLoss p r = 0) ∧
    capacityLoss scenarioParams scenR1 = 625 ∧
    capacityLoss scenarioParams scenR2 = 12500 / 3 ∧
    round2 (capacityLoss scenarioParams scenR2) = 416667 / 100 ∧
    capacityLoss scenarioParams scenR3 = 0 := by
  have h2 : capacityLoss scenarioParams scenR2 = 12500 / 3 := by
    norm_num [capacityLoss, oee, normOee, scenarioParams, scenR2]
  refine ⟨fun h => by simp [capacityLoss, h], fun h => by simp [capacityLoss, h],
    ?_, h2, ?_, ?_⟩
  · norm_num [capacityLoss, oee, normOee, scenarioParams, scenR1]
  · rw [h2, round2]; norm_num [round_eq]
  · norm_num [capacityLoss, oee, normOee, scenarioParams, scenR3]

/-- Witness for C1: the first scenario record satisfies `0 < oee < target`
and its capacity loss takes the formula value. -/
theorem capacity_loss_spec_witness :
    (0 < oee scenR1 ∧ oee scenR1 < scenarioParams.targetOee / 100) ∧
    capacityLoss scenarioParams scenR1
      = ((scenarioParams.targetOee / 100 - oee scenR1) / oee scenR1)
          * scenR1.output * scenarioParams.margin := by
  have h : 0 < oee scenR1 ∧ oee scenR1 < scenarioParams.targetOee / 100 := by
    norm_num [oee, normOee, scenR1, scenarioParams]
  exact ⟨h, (capacity_loss_spec scenarioParams scenR1).1 h⟩

/-- Claim C2: the energy loss is
`max(0, (unit_energy - benchmark) * output * price)`; consequently it is
nonnegative, the capacity loss is nonnegative (given the data model's
nonnegative output and a nonnegative margin), and a record sitting exactly
at the benchmark has zero energy loss. -/
theorem energy_loss_spec (rs : List Record) (p : Params) (r : Record)
    (hout : 0 ≤ r.output) (hm : 0 ≤ p.margin) :
    energyLoss rs p r
      = max 0 ((unitEnergy r - bestEnergy rs) * r.output * p.elecPrice) ∧
    0 ≤ energyLoss rs p r ∧
    0 ≤ capacityLoss p r ∧
    (unitEnergy r = bestEnergy rs → energyLoss rs p r = 0) := by
  refine ⟨rfl, le_max_left _ _, ?_, fun h => ?_⟩
  · rw [capacityLoss]
    split_ifs with hc
    · have h1 : 0 < oee r := hc.1
      have h2 : 0 ≤ p.targetOee / 100 - oee r := le_of_lt (sub_pos.mpr hc.2)
      exact mul_nonneg (mul_nonneg (div_nonneg h2 (le_of_lt h1)) hout) hm
    · exact le_refl 0
  · simp [energyLoss, h, sub_self]

/-- Witness for C2 at the literal scenario. -/
theorem energy_loss_spec_witness :
    (0 ≤ scenR1.output ∧ 0 ≤ scenarioParams.margin) ∧
    0 ≤ energyLoss scenRs scenarioParams scenR1 ∧
    0 ≤ capacityLoss scenarioParams scenR1 := by
  have hout : 0 ≤ scenR1.output := by norm_num [scenR1]
  have hm : 0 ≤ scenarioParams.margin := by norm_num [scenarioParams]
  have h := energy_loss_spec scenRs scenarioParams scenR1 hout hm
  exact ⟨⟨hout, hm⟩, h.2.1, h.2.2.1⟩

/-- Claim C3: the benchmark is the minimum of the strictly positive unit
energies of the whole input set (`0` when there are none), so no record's
unit energy is both strictly positive and strictly below the benchmark. -/
theorem benchmark_spec (rs : List Record) :
    (validEnergies rs = [] → bestEnergy rs = 0) ∧
    (validEnergies rs ≠ [] →
      bestEnergy rs ∈ validEnergies rs ∧
        ∀ e ∈ validEnergies rs, bestEnergy rs ≤ e) ∧
    (∀ r ∈ rs, ¬ (0 < unitEnergy r ∧ unitEnergy r < bestEnergy rs)) := by
  refine ⟨fun h => by simp [bestEnergy, h], fun h => ?_, ?_⟩
  · rw [bestEnergy, if_neg h]
    exact ⟨listMin_mem _ h, fun e he => listMin_le _ e he⟩
  · rintro r hr ⟨hpos, hlt⟩
    have hmem : unitEnergy r ∈ validEnergies rs :=
      List.mem_filter.mpr
        ⟨List.mem_map.mpr ⟨r, hr, rfl⟩, decide_eq_true hpos⟩
    have hne : validEnergies rs ≠ [] := by
      intro h0; rw [h0] at hmem; cases hmem
    have hle := listMin_le (validEnergies rs) _ hmem
    rw [bestEnergy, if_neg hne] at hlt
    exact absurd hlt (not_lt.mpr hle)

/-- Witness for C3 at the literal scenario: the three unit energies are
`0.1`, `0.12`, `0.09`, all positive, and the benchmark `0.09` is their
minimum and bounds each from below. -/
theorem benchmark_spec_witness :
    validEnergies scenRs ≠ [] ∧
    bestEnergy scenRs ∈ validEnergies scenRs ∧
    (∀ e ∈ validEnergies scenRs, bestEnergy scenRs ≤ e) ∧
    bestEnergy scenRs = 9 / 100 := by
  have hval : validEnergies scenRs = [1/10, 12/100, 9/100] := by
    norm_num [validEnergies, scenRs, scenR1, scenR2, scenR3, unitEnergy,
      List.filter]
  have hne : validEnergies scenRs ≠ [] := by rw [hval]; simp
  have h := (benchmark_spec scenRs).2.1 hne
  refine ⟨hne, h.1, h.2, ?_⟩
  rw [bestEnergy, if_neg hne, hval]
  norm_num [listMin]

/-- Claim C8: the normalized `oee` equals `oee_raw / 100` when `oee_raw > 1`
and equals `oee_raw` unchanged otherwise; the boundary value `1` itself is
treated as an already-normalized fraction. -/
theorem oee_normalization_spec (x : ℚ) :
    (1 < x → normOee x = x / 100) ∧ (x ≤ 1 → normOee x = x) ∧ normOee 1 = 1 := by
  refine ⟨fun h => ?_, fun h => ?_, ?_⟩
  · simp [normOee, h]
  · simp [normOee, not_lt.mpr h]
  · simp [normOee]

/-- Witness for C8 at the spec's scenario values: `76.1` normalizes to
`0.761` and `0.85` stays `0.85`. -/
theorem oee_normalization_spec_witness :
    (1 < (761/10 : ℚ) ∧ normOee (761/10) = 761/1000) ∧
    ((85/100 : ℚ) ≤ 1 ∧ normOee (85/100) = 85/100) := by
  constructor
  · refine ⟨by norm_num, ?_⟩
    have h := (oee_normalization_spec (761/10)).1 (by norm_num)
    rw [h]; norm_num
  · exact ⟨by norm_num, (oee_normalization_spec (85/100)).2.1 (by norm_num)⟩

/-- Claim C9: `unit_energy` equals `energy_kwh / output_qty` when
`output_qty > 0` and `0` when `output_qty ≤ 0`; the division is always
guarded, so the computation is total. -/
theorem unit_energy_spec (r : Record) :
    (0 < r.output → unitEnergy r = r.energy / r.output) ∧
    (r.output ≤ 0 → unitEnergy r = 0) := by
  refine ⟨fun h => ?_, fun h => ?_⟩
  · simp [unitEnergy, h]
  · simp [unitEnergy, not_lt.mpr h]

/-- Witness for C9 at scenario record 1 and at a zero-output record. -/
theorem unit_energy_spec_witness :
    (0 < scenR1.output ∧ unitEnergy scenR1 = scenR1.energy / scenR1.output) ∧
    ((⟨"Z", "F", 1/2, 0, 5⟩ : Record).output ≤ 0 ∧
      unitEnergy ⟨"Z", "F", 1/2, 0, 5⟩ = 0) := by
  constructor
  · exact ⟨by norm_num [scenR1], (unit_energy_spec scenR1).1 (by norm_num [scenR1])⟩
  · exact ⟨by norm_num, (unit_energy_spec ⟨"Z", "F", 1/2, 0, 5⟩).2 (by norm_num)⟩

/-- Claim C4: the group-level unit energy is the energy-weighted average
`sum(energy) / sum(output)` (whenever the group produces output), and it is
not the arithmetic mean of the per-record unit energies — on the uneven
two-record group the code's value is `2` while the arithmetic mean of the
per-record unit energies is `50/9`. -/
theorem weighted_unit_energy_spec (rs : List Record) (k : Record → String)
    (key : String) (h : 0 < sumOutput (groupRecords rs k key)) :
    groupUnitEnergy rs k key
      = sumEnergy (groupRecords rs k key) / sumOutput (groupRecords rs k key) ∧
    groupUnitEnergy skewRs Record.entity "M" = 2 ∧
    meanUnitEnergy (groupRecords skewRs Record.entity "M") = 50 / 9 ∧
    groupUnitEnergy skewRs Record.entity "M"
      ≠ meanUnitEnergy (groupRecords skewRs Record.entity "M") := by
  have h1 : groupUnitEnergy skewRs Record.entity "M" = 2 := by
    norm_num [groupUnitEnergy, groupRecords, skewRs, sumOutput, sumEnergy,
      List.filter_cons, List.filter_nil]
  have h2 : meanUnitEnergy (groupRecords skewRs Record.entity "M") = 50 / 9 := by
    norm_num [meanUnitEnergy, groupRecords, skewRs, unitEnergy,
      List.filter_cons, List.filter_nil]
  refine ⟨by rw [groupUnitEnergy, if_pos h], h1, h2, ?_⟩
  rw [h1, h2]; norm_num

/-- Witness for C4 at the skewed two-record group (total output `10 > 0`),
whose weighted unit energy is `20 / 10`. -/
theorem weighted_unit_energy_spec_witness :
    0 < sumOutput (groupRecords skewRs Record.entity "M") ∧
    groupUnitEnergy skewRs Record.entity "M"
      = sumEnergy (groupRecords skewRs Record.entity "M")
          / sumOutput (groupRecords skewRs Record.entity "M") := by
  have h : 0 < sumOutput (groupRecords skewRs Record.entity "M") := by
    norm_num [groupRecords, skewRs, sumOutput, List.filter_cons, List.filter_nil]
  exact ⟨h, (weighted_unit_energy_spec skewRs Record.entity "M" h).1⟩

/-! ### Sorting and ranking lemmas for claim C5 -/

theorem dedupKeys_nodup (l : List String) : (dedupKeys l).Nodup := by
  induction l with
  | nil => simp [dedupKeys]
  | cons x xs ih =>
    rw [dedupKeys]
    split_ifs with h
    · exact ih
    · exact List.nodup_cons.mpr ⟨h, ih⟩

theorem insertDesc_perm (x : String × ℚ) (l : List (String × ℚ)) :
    List.Perm (insertDesc x l) (x :: l) := by
  induction l with
  | nil => rfl
  | cons y ys ih =>
    rw [insertDesc]
    split_ifs with h
    · exact List.Perm.refl _
    · exact List.Perm.trans (List.Perm.cons y ih) (List.Perm.swap x y ys)

theorem sortDesc_perm (l : List (String × ℚ)) : List.Perm (sortDesc l) l := by
  induction l with
  | nil => rfl
  | cons x xs ih =>
    exact List.Perm.trans (insertDesc_perm x (sortDesc xs)) (List.Perm.cons x ih)

theorem insertDesc_sorted (x : String × ℚ) (l : List (String × ℚ))
    (h : l.Pairwise (fun a b => b.2 ≤ a.2)) :
    (insertDesc x l).Pairwise (fun a b => b.2 ≤ a.2) := by
  induction l with
  | nil => simp [insertDesc]
  | cons y ys ih =>
    rw [insertDesc]
    rcases List.pairwise_cons.mp h with ⟨hy, hys⟩
    split_ifs with hlt
    · refine List.pairwise_cons.mpr ⟨?_, h⟩
      intro z hz
      rcases List.mem_cons.mp hz with rfl | hz'
      · exact le_of_lt hlt
      · exact le_trans (hy z hz') (le_of_lt hlt)
    · refine List.pairwise_cons.mpr ⟨?_, ih hys⟩
      intro z hz
      have hz' : z ∈ x :: ys := (insertDesc_perm x ys).mem_iff.mp hz
      rcases List.mem_cons.mp hz' with rfl | hz''
      · exact not_lt.mp hlt
      · exact hy z hz''

theorem sortDesc_sorted (l : List (String × ℚ)) :
    (sortDesc l).Pairwise (fun a b => b.2 ≤ a.2) := by
  induction l with
  | nil => simp [sortDesc]
  | cons x xs ih => exact insertDesc_sorted x (sortDesc xs) ih

theorem idxOfKey_lt (key : String) (m : ℚ) (l : List (String × ℚ))
    (hmem : (key, m) ∈ l) : idxOfKey key l < l.length := by
  induction l with
  | nil => cases hmem
  | cons p ps ih =>
    rw [idxOfKey]
    split_ifs with h
    · simp
    · rcases List.mem_cons.mp hmem with h' | h'
      · exact absurd (congrArg Prod.fst h'.symm) h
      · simpa using Nat.succ_lt_succ (ih h')

theorem idxOfKey_get (key : String) (m : ℚ) (l : List (String × ℚ))
    (hmem : (key, m) ∈ l) (hnd : (l.map Prod.fst).Nodup)
    (h : idxOfKey key l < l.length) :
    l.get ⟨idxOfKey key l, h⟩ = (key, m) := by
  induction l with
  | nil => cases hmem
  | cons p ps ih =>
    rw [List.map_cons, List.nodup_cons] at hnd
    by_cases hp : p.1 = key
    · rcases List.mem_cons.mp hmem with h' | h'
      · simp only [idxOfKey, hp, if_pos]
        simpa using h'.symm
      · exfalso
        have hk : key ∈ ps.map Prod.fst := List.mem_map.mpr ⟨(key, m), h', rfl⟩
        exact hnd.1 (hp ▸ hk)
    · rcases List.mem_cons.mp hmem with h' | h'
      · exact absurd (congrArg Prod.fst h'.symm) hp
      · have h'' : idxOfKey key (p :: ps) = idxOfKey key ps + 1 := by
          rw [idxOfKey, if_neg hp]
        have hlt : idxOfKey key ps < ps.length := idxOfKey_lt key m ps h'
        have := ih h' hnd.2 hlt
        simp only [List.get] at this ⊢
        rw [show (⟨idxOfKey key (p :: ps), h⟩ : Fin (p :: ps).length)
              = ⟨idxOfKey key ps + 1, by simpa using Nat.succ_lt_succ hlt⟩ from
            Fin.ext h'']
        simpa using this

theorem sorted_idx_lt (l : List (String × ℚ))
    (hs : l.Pairwise (fun a b => b.2 ≤ a.2))
    (hnd : (l.map Prod.fst).Nodup)
    (a b : String) (ma mb : ℚ)
    (hma : (a, ma) ∈ l) (hmb : (b, mb) ∈ l) (hlt : mb < ma) :
    idxOfKey a l < idxOfKey b l := by
  have hla := idxOfKey_lt a ma l hma
  have hlb := idxOfKey_lt b mb l hmb
  have hga := idxOfKey_get a ma l hma hnd hla
  have hgb := idxOfKey_get b mb l hmb hnd hlb
  by_contra hcon
  push_neg at hcon
  rcases lt_or_eq_of_le hcon with hlt' | heq
  · have hpw := List.pairwise_iff_get.mp hs ⟨idxOfKey b l, hlb⟩
      ⟨idxOfKey a l, hla⟩ hlt'
    rw [hga, hgb] at hpw
    exact absurd hpw (not_le.mpr hlt)
  · have hgeq : l.get ⟨idxOfKey b l, hlb⟩ = l.get ⟨idxOfKey a l, hla⟩ := by
      congr 1
      exact Fin.ext heq
    rw [hga, hgb] at hgeq
    have : mb = ma := congrArg Prod.snd hgeq
    exact absurd this (ne_of_lt hlt)

theorem summaryRows_fst (rs : List Record) (k : Record → String) :
    (summaryRows rs k).map Prod.fst = keysOf rs k := by
  rw [summaryRows, List.map_map]
  exact List.map_id _

theorem sortedSummary_fst_nodup (rs : List Record) (k : Record → String) :
    ((sortedSummary rs k).map Prod.fst).Nodup := by
  rw [sortedSummary]
  have hperm := (sortDesc_perm (summaryRows rs k)).map Prod.fst
  rw [hperm.nodup_iff, summaryRows_fst]
  exact dedupKeys_nodup _

/-- Claim C5 counterexample: in the two-machine input whose groups have
identical mean OEE, the sorted summary gives the groups the distinct row
positions 1 and 2 — they do not share a rank value of 1 as the claim's
minimum-ranking rule would require. -/
theorem rank_tie_counterexample :
    meanOee (groupRecords tieRs Record.entity "A")
      = meanOee (groupRecords tieRs Record.entity "B") ∧
    rankOf tieRs Record.entity "A" = 2 ∧
    rankOf tieRs Record.entity "B" = 1 ∧
    rankOf tieRs Record.entity "A" ≠ rankOf tieRs Record.entity "B" := by
  have h1 : summaryRows tieRs Record.entity = [("A", 1/2), ("B", 1/2)] := by
    norm_num [summaryRows, keysOf, tieRs, dedupKeys, meanOee, groupRecords,
      List.filter_cons, List.filter_nil, oee, normOee,
      show ("A" : String) ≠ "B" from by decide,
      show ("B" : String) ≠ "A" from by decide]
  have h2 : sortedSummary tieRs Record.entity = [("B", 1/2), ("A", 1/2)] := by
    rw [sortedSummary, h1]
    norm_num [sortDesc, insertDesc]
  have hA : rankOf tieRs Record.entity "A" = 2 := by
    rw [rankOf, h2]
    norm_num [idxOfKey, show ("B" : String) ≠ "A" from by decide]
  have hB : rankOf tieRs Record.entity "B" = 1 := by
    rw [rankOf, h2]
    norm_num [idxOfKey]
  refine ⟨?_, hA, hB, by rw [hA, hB]; norm_num⟩
  norm_num [meanOee, groupRecords, tieRs, List.filter_cons, List.filter_nil,
    oee, normOee, show ("A" : String) ≠ "B" from by decide,
    show ("B" : String) ≠ "A" from by decide]

/-- Claim C5 as amended: a group's rank is its 1-based row position in the
summary sorted by mean OEE descending; a strictly greater mean OEE yields a
strictly smaller (hence at most equal) rank, and distinct groups always get
distinct ranks — tied groups receive distinct consecutive positions rather
than a shared rank value. -/
theorem rank_spec (rs : List Record) (k : Record → String) (a b : String)
    (ha : a ∈ keysOf rs k) (hb : b ∈ keysOf rs k) :
    (meanOee (groupRecords rs k b) < meanOee (groupRecords rs k a) →
      rankOf rs k a < rankOf rs k b) ∧
    (a ≠ b → rankOf rs k a ≠ rankOf rs k b) := by
  have hmema : (a, meanOee (groupRecords rs k a)) ∈ sortedSummary rs k :=
    (sortDesc_perm (summaryRows rs k)).mem_iff.mpr
      (List.mem_map.mpr ⟨a, ha, rfl⟩)
  have hmemb : (b, meanOee (groupRecords rs k b)) ∈ sortedSummary rs k :=
    (sortDesc_perm (summaryRows rs k)).mem_iff.mpr
      (List.mem_map.mpr ⟨b, hb, rfl⟩)
  have hnd := sortedSummary_fst_nodup rs k
  have hs := sortDesc_sorted (summaryRows rs k)
  constructor
  · intro hlt
    have := sorted_idx_lt (sortedSummary rs k) hs hnd a b _ _ hmema hmemb hlt
    simpa [rankOf] using Nat.succ_lt_succ this
  · intro hne hcon
    have hla := idxOfKey_lt a _ _ hmema
    have hlb := idxOfKey_lt b _ _ hmemb
    have hga := idxOfKey_get a _ _ hmema hnd hla
    have hgb := idxOfKey_get b _ _ hmemb hnd hlb
    have heq : idxOfKey a (sortedSummary rs k)
        = idxOfKey b (sortedSummary rs k) := by
      simpa [rankOf] using hcon
    have hgeq : (sortedSummary rs k).get ⟨idxOfKey a (sortedSummary rs k), hla⟩
        = (sortedSummary rs k).get ⟨idxOfKey b (sortedSummary rs k), hlb⟩ := by
      congr 1
      exact Fin.ext heq
    rw [hga, hgb] at hgeq
    exact hne (congrArg Prod.fst hgeq)

/-- Witness for the amended C5 on the literal scenario grouped by machine:
mean OEEs are `{0.8, 0.6, 0.9}`, the sorted positions are `{2, 3, 1}` (the
spec's scenario ranks), and the machine with the larger mean outranks the
smaller. -/
theorem rank_spec_witness :
    ("E1" ∈ keysOf scenRs Record.entity ∧ "E2" ∈ keysOf scenRs Record.entity) ∧
    (meanOee (groupRecords scenRs Record.entity "E2")
        < meanOee (groupRecords scenRs Record.entity "E1") ∧
      rankOf scenRs Record.entity "E1" < rankOf scenRs Record.entity "E2") ∧
    rankOf scenRs Record.entity "E1" = 2 ∧
    rankOf scenRs Record.entity "E2" = 3 ∧
    rankOf scenRs Record.entity "E3" = 1 := by
  have hkeys : keysOf scenRs Record.entity = ["E1", "E2", "E3"] := by
    norm_num [keysOf, scenRs, scenR1, scenR2, scenR3, dedupKeys,
      show ("E1" : String) ≠ "E2" from by decide,
      show ("E1" : String) ≠ "E3" from by decide,
      show ("E2" : String) ≠ "E3" from by decide]
  have h1 : summaryRows scenRs Record.entity
      = [("E1", 8/10), ("E2", 6/10), ("E3", 9/10)] := by
    rw [summaryRows, hkeys]
    norm_num [meanOee, groupRecords, scenRs, scenR1, scenR2, scenR3,
      List.filter_cons, List.filter_nil, oee, normOee,
      show ("E1" : String) ≠ "E2" from by decide,
      show ("E1" : String) ≠ "E3" from by decide,
      show ("E2" : String) ≠ "E1" from by decide,
      show ("E2" : String) ≠ "E3" from by decide,
      show ("E3" : String) ≠ "E1" from by decide,
      show ("E3" : String) ≠ "E2" from by decide]
  have h2 : sortedSummary scenRs Record.entity
      = [("E3", 9/10), ("E1", 8/10), ("E2", 6/10)] := by
    rw [sortedSummary, h1]
    norm_num [sortDesc, insertDesc]
  have hE1 : rankOf scenRs Record.entity "E1" = 2 := by
    rw [rankOf, h2]
    norm_num [idxOfKey, show ("E3" : String) ≠ "E1" from by decide]
  have hE2 : rankOf scenRs Record.entity "E2" = 3 := by
    rw [rankOf, h2]
    norm_num [idxOfKey, show ("E3" : String) ≠ "E2" from by decide,
      show ("E1" : String) ≠ "E2" from by decide]
  have hE3 : rankOf scenRs Record.entity "E3" = 1 := by
    rw [rankOf, h2]
    norm_num [idxOfKey]
  have hmean : meanOee (groupRecords scenRs Record.entity "E2")
      < meanOee (groupRecords scenRs Record.entity "E1") := by
    norm_num [meanOee, groupRecords, scenRs, scenR1, scenR2, scenR3,
      List.filter_cons, List.filter_nil, oee, normOee,
      show ("E1" : String) ≠ "E2" from by decide,
      show ("E2" : String) ≠ "E1" from by decide,
      show ("E3" : String) ≠ "E1" from by decide,
      show ("E3" : String) ≠ "E2" from by decide]
  have hk1 : "E1" ∈ keysOf scenRs Record.entity := by rw [hkeys]; simp
  have hk2 : "E2" ∈ keysOf scenRs Record.entity := by rw [hkeys]; simp
  exact ⟨⟨hk1, hk2⟩,
    ⟨hmean, (rank_spec scenRs Record.entity "E1" "E2" hk1 hk2).1 hmean⟩,
    hE1, hE2, hE3⟩

end ProdAnalysis

namespace ProdAnalysis

/-! ### Field normalizer lemmas for claims C6 and C10 -/

theorem renameStep_not_mem (k s : String) (t : Table) (h : k ∉ names t) :
    renameStep k s t = t := by
  rw [renameStep, if_neg h]

theorem renameStep_mem (k s : String) (t : Table) (c : String) (vs : List Val)
    (hmem : (c, vs) ∈ t) (hck : c ≠ k) : (c, vs) ∈ renameStep k s t := by
  rw [renameStep]
  split_ifs with hg
  · exact List.mem_map.mpr ⟨(c, vs), hmem, by simp [hck]⟩
  · exact hmem

theorem canonical_not_synonym (c : String) (hc : c ∈ canonicalCols) :
    c ∉ synonymKeys := by
  fin_cases hc <;> decide

theorem renameAll_no_synonym (t : Table)
    (h : ∀ k ∈ synonymKeys, k ∉ names t) : renameAll t = t := by
  simp only [renameAll, renameMap, List.foldl_cons, List.foldl_nil]
  rw [renameStep_not_mem "用電量(kWh)" "耗電量" t (h _ (by decide)),
    renameStep_not_mem "產量(雙)" "產量" t (h _ (by decide)),
    renameStep_not_mem "OEE(%)" "OEE_RAW" t (h _ (by decide)),
    renameStep_not_mem "設備" "機台編號" t (h _ (by decide)),
    renameStep_not_mem "機台" "機台編號" t (h _ (by decide))]

theorem renameAll_mem_canonical (t : Table) (c : String) (vs : List Val)
    (hmem : (c, vs) ∈ t) (hc : c ∈ canonicalCols) : (c, vs) ∈ renameAll t := by
  have h1 : c ≠ "用電量(kWh)" := by rintro rfl; exact absurd hc (by decide)
  have h2 : c ≠ "產量(雙)" := by rintro rfl; exact absurd hc (by decide)
  have h3 : c ≠ "OEE(%)" := by rintro rfl; exact absurd hc (by decide)
  have h4 : c ≠ "設備" := by rintro rfl; exact absurd hc (by decide)
  have h5 : c ≠ "機台" := by rintro rfl; exact absurd hc (by decide)
  simp only [renameAll, renameMap, List.foldl_cons, List.foldl_nil]
  exact renameStep_mem _ _ _ _ _
    (renameStep_mem _ _ _ _ _
      (renameStep_mem _ _ _ _ _
        (renameStep_mem _ _ _ _ _
          (renameStep_mem _ _ _ _ _ hmem h1) h2) h3) h4) h5

theorem parseVals_dates (parse : Val → Option Int)
    (hp : ∀ d, parse (Val.date d) = some d) (vs : List Val)
    (hv : ∀ v ∈ vs, isDate v = true) : parseVals parse vs = some vs := by
  induction vs with
  | nil => rfl
  | cons v vs ih =>
    have hd := hv v (List.mem_cons_self _ _)
    obtain ⟨d, rfl⟩ : ∃ d, v = Val.date d := by
      cases v with
      | date d => exact ⟨d, rfl⟩
      | num q => simp [isDate] at hd
      | str s => simp [isDate] at hd
    rw [parseVals, parseDateVal, hp d]
    simp [ih (fun v hv' => hv v (List.mem_cons_of_mem _ hv'))]

theorem parseDatesCols_dates (parse : Val → Option Int)
    (hp : ∀ d, parse (Val.date d) = some d) (t : Table)
    (hv : ∀ c ∈ t, c.1 = "日期" → ∀ v ∈ c.2, isDate v = true) :
    parseDatesCols parse t = some t := by
  induction t with
  | nil => rfl
  | cons c cs ih =>
    have ih' := ih (fun c' hc' => hv c' (List.mem_cons_of_mem _ hc'))
    rw [parseDatesCols]
    split_ifs with hname
    · rw [parseVals_dates parse hp c.2 (hv c (List.mem_cons_self _ _) hname), ih']
    · rw [ih']

/-- Claim C6: when any required canonical column is missing after synonym
renaming, the whole run fails with an error carrying exactly the list of
missing canonical names; the failure is independent of the cell contents,
the parameters and the date parser (the check precedes all numeric work),
and no output — neither enriched records nor groups — is produced. -/
theorem schema_error_spec (parse : Val → Option Int) (t : Table) (p : Params)
    (h : missingCols (renameAll t) ≠ []) :
    cleanAndProcess parse t p
      = Except.error (DataError.schema (missingCols (renameAll t))) ∧
    (∀ c, c ∈ missingCols (renameAll t) ↔
      c ∈ requiredCols ∧ c ∉ names (renameAll t)) ∧
    (∀ out, cleanAndProcess parse t p ≠ Except.ok out) := by
  have hn : normalizeTable parse t
      = Except.error (DataError.schema (missingCols (renameAll t))) := by
    simp only [normalizeTable]
    rw [if_pos h]
  have hmain : cleanAndProcess parse t p
      = Except.error (DataError.schema (missingCols (renameAll t))) := by
    unfold cleanAndProcess
    rw [hn]
  refine ⟨hmain, ?_, ?_⟩
  · intro c
    simp [missingCols, List.mem_filter]
  · intro out hcon
    rw [hmain] at hcon
    cases hcon

/-- Witness for C6: a table with only machine and energy columns is missing
`產量` and `OEE_RAW`, and the run aborts with exactly that list. -/
theorem schema_error_spec_witness :
    missingCols (renameAll demoT) ≠ [] ∧
    missingCols (renameAll demoT) = ["產量", "OEE_RAW"] ∧
    cleanAndProcess demoParse demoT scenarioParams
      = Except.error (DataError.schema (missingCols (renameAll demoT))) := by
  have h : missingCols (renameAll demoT) ≠ [] := by decide
  exact ⟨h, by decide, (schema_error_spec demoParse demoT scenarioParams h).1⟩

/-- Claim C10: synonym renaming applies only where a synonym label is
present (a table without synonym labels is left exactly as it is), a
canonical column that is already present survives renaming untouched, and
the Field Normalizer maps a table already in the canonical schema to itself. -/
theorem normalizer_idempotent_spec (parse : Val → Option Int) (t u : Table)
    (c : String) (vs : List Val)
    (hp : ∀ d, parse (Val.date d) = some d) :
    ((∀ k ∈ synonymKeys, k ∉ names u) → renameAll u = u) ∧
    ((c, vs) ∈ u → c ∈ canonicalCols → (c, vs) ∈ renameAll u) ∧
    (canonicalTable t → normalizeTable parse t = Except.ok t) := by
  refine ⟨renameAll_no_synonym u,
    fun hm hc => renameAll_mem_canonical u c vs hm hc, fun hc => ?_⟩
  obtain ⟨hnames, hmiss, hfac, hdates⟩ := hc
  have hren : renameAll t = t :=
    renameAll_no_synonym t
      (fun k hk hkn => canonical_not_synonym k (hnames k hkn) hk)
  simp only [normalizeTable, hren, hmiss, ne_eq, not_true_eq_false,
    if_false, parseDatesCols_dates parse hp t hdates]
  rw [addFacility, if_pos hfac]

/-- Witness for C10: a concrete canonical table is mapped to itself by the
whole normalizer. -/
theorem normalizer_idempotent_spec_witness :
    canonicalTable canonT ∧
    normalizeTable demoParse canonT = Except.ok canonT := by
  have hp : ∀ d, demoParse (Val.date d) = some d := fun d => rfl
  have hc : canonicalTable canonT := by
    refine ⟨by decide, by decide, by decide, ?_⟩
    decide
  exact ⟨hc,
    (normalizer_idempotent_spec demoParse canonT canonT "日期" [] hp).2.2 hc⟩

/-! ### Stability analyzer lemmas for claim C7 -/

theorem sum_zero_of_nonneg (xs : List ℚ) (hnn : ∀ x ∈ xs, 0 ≤ x)
    (hs : xs.sum = 0) : ∀ x ∈ xs, x = 0 := by
  induction xs with
  | nil => intro x hx; cases hx
  | cons y ys ih =>
    rw [List.sum_cons] at hs
    have hy : 0 ≤ y := hnn y (List.mem_cons_self _ _)
    have hys : 0 ≤ ys.sum :=
      List.sum_nonneg (fun x hx => hnn x (List.mem_cons_of_mem _ hx))
    have hy0 : y = 0 := le_antisymm (by linarith) hy
    have hs0 : ys.sum = 0 := by linarith
    intro x hx
    rcases List.mem_cons.mp hx with rfl | hx'
    · exact hy0
    · exact ih (fun x hx => hnn x (List.mem_cons_of_mem _ hx)) hs0 x hx'

/-- Claim C7: the CV cell of `create_cv_chart` is a total computation that
yields the number `0` both for a single-record group (the standard deviation
is `NaN`, and `fillna(0)` turns the propagated `NaN` into `0`) and for a
group of nonnegative OEE values whose mean is `0` (all values are then `0`,
so the `0/0` gives `NaN`, again filled with `0`). -/
theorem cv_total_spec (sq : ℚ → ℚ) (rs : List Record) (k : Record → String)
    (key : String) (hsq : sq 0 = 0) :
    ((groupRecords rs k key).length = 1 → cvChart sq rs k key = PVal.num 0) ∧
    ((∀ r ∈ groupRecords rs k key, 0 ≤ oee r) →
      listMean (groupOees rs k key) = 0 → cvChart sq rs k key = PVal.num 0) := by
  constructor
  · intro h1
    have hlen : (groupOees rs k key).length = 1 := by
      rw [groupOees, List.length_map, h1]
    rw [cvChart, stdP, if_pos (by rw [hlen]; norm_num)]
    rfl
  · intro hnn hmean
    by_cases hlen : (groupOees rs k key).length < 2
    · rw [cvChart, stdP, if_pos hlen]
      rfl
    · have hlenQ : ((groupOees rs k key).length : ℚ) ≠ 0 := by
        have : 2 ≤ (groupOees rs k key).length := not_lt.mp hlen
        exact_mod_cast Nat.pos_iff_ne_zero.mp (by omega)
      have hsum : (groupOees rs k key).sum = 0 := by
        rw [listMean] at hmean
        rcases div_eq_zero_iff.mp hmean with h | h
        · exact h
        · exact absurd h hlenQ
      have hnn' : ∀ x ∈ groupOees rs k key, 0 ≤ x := by
        intro x hx
        obtain ⟨r, hr, rfl⟩ := List.mem_map.mp hx
        exact hnn r hr
      have hall := sum_zero_of_nonneg _ hnn' hsum
      have hmap : (groupOees rs k key).map
          (fun x => (x - listMean (groupOees rs k key)) ^ 2)
          = (groupOees rs k key).map (fun _ => (0 : ℚ)) :=
        List.map_congr_left (fun x hx => by rw [hall x hx, hmean]; ring)
      have hvar : sampleVar (groupOees rs k key) = 0 := by
        rw [sampleVar, hmap]
        simp
      rw [cvChart, stdP, if_neg hlen, hvar, hsq, hmean]
      simp [divPVal, mulPVal100, fillna0]

/-- Witness for C7: the single-record group of the first scenario machine
and a two-record all-zero-OEE group both get CV `0` (with the square root
instantiated to the identity, which fixes `0`). -/
theorem cv_total_spec_witness :
    ((groupRecords [scenR1] Record.entity "E1").length = 1 ∧
      cvChart (fun q => q) [scenR1] Record.entity "E1" = PVal.num 0) ∧
    ((∀ r ∈ groupRecords zeroRs Record.entity "Z", 0 ≤ oee r) ∧
      listMean (groupOees zeroRs Record.entity "Z") = 0 ∧
      cvChart (fun q => q) zeroRs Record.entity "Z" = PVal.num 0) := by
  have hlen : (groupRecords [scenR1] Record.entity "E1").length = 1 := by
    simp [groupRecords, scenR1, List.filter_cons, List.filter_nil]
  have hnn : ∀ r ∈ groupRecords zeroRs Record.entity "Z", 0 ≤ oee r := by
    intro r hr
    simp only [groupRecords, zeroRs, List.filter_cons, List.filter_nil] at hr
    norm_num at hr
    subst hr
    norm_num [oee, normOee]
  have hmean : listMean (groupOees zeroRs Record.entity "Z") = 0 := by
    norm_num [listMean, groupOees, groupRecords, zeroRs, List.filter_cons,
      List.filter_nil, oee, normOee]
  exact ⟨⟨hlen, (cv_total_spec (fun q => q) [scenR1] Record.entity "E1" rfl).1 hlen⟩,
    ⟨hnn, hmean,
      (cv_total_spec (fun q => q) zeroRs Record.entity "Z" rfl).2 hnn hmean⟩⟩

end ProdAnalysis
